import Mathlib

/-!
Verification of the `Mamba2Simple` bidirectional selective state-space layer
(`mamba_ssm/modules/mamba2_simple.py`).

Shallow embedding conventions:
* A per-timestep channel vector is a function `ℕ → ℝ`; a (time, channel)
  activation tensor for one batch element is a `List (ℕ → ℝ)` (every layer
  operation acts independently on batch elements, so the batch axis is
  dropped).
* Python float scalars appearing in the configuration are modelled as `ℚ`
  so configuration checks stay decidable; tensor values are `ℝ`.
* `dt_limit = (0.0, float("inf"))` is modelled as `((0 : ℚ), none)`;
  a finite upper bound is `some hi`.
* Failures (Python `assert` → the spec's `ConfigurationError`, and the
  runtime `TypeError`) are modelled with `Except LayerError`.
* The Triton kernels `mamba_split_conv1d_scan_combined` and
  `mamba_chunk_scan_combined` plus `causal_conv1d_fn` and `RMSNormGated`
  are part of this repository but not present under the sources given;
  they are modelled from the spec (§4.2, §4.3, §6): causal depthwise
  convolution with left padding `d_conv-1` followed by the activation,
  the sequential selective-scan recurrence
  `state_t = exp(dt_t * A) * state_{t-1} + dt_t * B_t ⊗ x_t`,
  `y_t = C_t · state_t + D * x_t` (chunking is an execution strategy of
  the same recurrence, spec §4.3), and gated RMS normalization with
  `norm_before_gate = False`.
-/

/-- Construction-time configuration of `Mamba2Simple.__init__`, with the
source's default values. -/
structure Config where
  d_model : ℕ
  d_state : ℕ := 64
  d_conv : ℕ := 4
  expand : ℕ := 2
  headdim : ℕ := 128
  ngroups : ℕ := 1
  A_init_range : ℚ × ℚ := (1, 16)
  dt_limit : ℚ × Option ℚ := (0, none)
  learnable_init_states : Bool := false
  activation : String := "swish"
  bimamba_type : String := "none"
  divide_out : Bool := false
  bias : Bool := false
  conv_bias : Bool := true
  chunk_size : ℕ := 256
  use_mem_eff_path : Bool := true

/-- Source: `self.d_inner = self.expand * self.d_model`. -/
def Config.d_inner (cfg : Config) : ℕ := cfg.expand * cfg.d_model

/-- Source: `self.nheads = self.d_inner // self.headdim`. -/
def Config.nheads (cfg : Config) : ℕ := cfg.d_inner / cfg.headdim

/-- Source: `conv_dim = self.d_inner + 2 * self.ngroups * self.d_state`. -/
def Config.conv_dim (cfg : Config) : ℕ :=
  cfg.d_inner + 2 * cfg.ngroups * cfg.d_state

/-- Source: `d_in_proj = 2 * self.d_inner + 2 * self.ngroups * self.d_state + self.nheads`. -/
def Config.d_in_proj (cfg : Config) : ℕ :=
  2 * cfg.d_inner + 2 * cfg.ngroups * cfg.d_state + cfg.nheads

/-- Errors surfaced by construction or by `forward`: the spec's
`ConfigurationError` (Python `assert` failures in `__init__` / `forward`),
and the Python `TypeError` raised at runtime by ill-formed expressions. -/
inductive LayerError where
  | configError : String → LayerError
  | typeError : String → LayerError

/-- The configuration checks performed by `Mamba2Simple.__init__`, in
source order: `assert self.d_inner % self.headdim == 0` (line 62),
`assert A_init_range[0] > 0 and A_init_range[1] >= A_init_range[0]`
(line 111), `assert bimamba_type == "v2"` (line 122). -/
def Mamba2Simple.initCheck (cfg : Config) : Except LayerError Unit :=
  if cfg.d_inner % cfg.headdim ≠ 0 then
    .error (.configError "ConfigurationError: d_inner not divisible by headdim")
  else if ¬ (0 < cfg.A_init_range.1 ∧ cfg.A_init_range.1 ≤ cfg.A_init_range.2) then
    .error (.configError "ConfigurationError: invalid A_init_range")
  else if cfg.bimamba_type ≠ "v2" then
    .error (.configError "ConfigurationError: bimamba_type must be v2")
  else
    .ok ()

/-- The learnable tensors of `Mamba2Simple`, with the source's names.
Channel indices are `ℕ`; entries beyond a tensor's true extent are never
read by the layer.  Note the backward set (`conv1d_bw_*`, `A_b_log`,
`D_b`, `dt_bias_bw`) is constructed unconditionally (source lines
124-158, after the `bimamba_type == "v2"` assert). -/
structure Params where
  in_proj_w : ℕ → ℕ → ℝ
  in_proj_b : ℕ → ℝ
  conv1d_w : ℕ → ℕ → ℝ
  conv1d_b : ℕ → ℝ
  conv1d_bw_w : ℕ → ℕ → ℝ
  conv1d_bw_b : ℕ → ℝ
  dt_bias : ℕ → ℝ
  dt_bias_bw : ℕ → ℝ
  A_log : ℕ → ℝ
  A_b_log : ℕ → ℝ
  D : ℕ → ℝ
  D_b : ℕ → ℝ
  init_states : ℕ → ℕ → ℕ → ℝ
  norm_w : ℕ → ℝ
  out_proj_w : ℕ → ℕ → ℝ
  out_proj_b : ℕ → ℝ

/-- The softplus activation, `F.softplus`. -/
noncomputable def softplus (x : ℝ) : ℝ := Real.log (1 + Real.exp x)

/-- The `nn.SiLU` / "swish" activation, `x * sigmoid x`. -/
noncomputable def silu (x : ℝ) : ℝ := x / (1 + Real.exp (-x))

/-- The decay rate used at forward time, `A = -torch.exp(self.A_log)`
(source lines 174 and 180; also applied to `A_b_log`). -/
noncomputable def Aof (a : ℝ) : ℝ := -Real.exp a

/-- The per-timestep selectivity step before any `dt_limit` clamp:
`dt = F.softplus(raw + dt_bias)` (source line 265; computed identically
inside the fused kernel). -/
noncomputable def dtStep (raw bias : ℝ) : ℝ := softplus (raw + bias)

/-- Modelled from the spec: the scan kernels' `dt_limit` clamp
(`mamba_split_conv1d_scan_combined` / `mamba_chunk_scan_combined` are not
among the given sources).  Spec §4.3: "`dt_limit` clamps `dt` into
`[lo, hi]` before use when configured"; `torch.clamp` semantics,
`none` standing for `float("inf")`. -/
noncomputable def applyDtLimit (lim : ℚ × Option ℚ) (dt : ℝ) : ℝ :=
  match lim.2 with
  | none => max (lim.1 : ℝ) dt
  | some hi => min (hi : ℝ) (max (lim.1 : ℝ) dt)

/-- The `dt` value handed to the scan: softplus of raw-plus-bias, clamped
only when `dt_limit` differs from the default `(0.0, float("inf"))`
(source line 176: `dt_limit_kwargs`). -/
noncomputable def dtValue (cfg : Config) (bias raw : ℝ) : ℝ :=
  if cfg.dt_limit = ((0 : ℚ), (none : Option ℚ)) then dtStep raw bias
  else applyDtLimit cfg.dt_limit (dtStep raw bias)

/-- A dense affine map over the first `dIn` channels (`nn.Linear`). -/
noncomputable def linearMap (dIn : ℕ) (w : ℕ → ℕ → ℝ) (b : ℕ → ℝ) (v : ℕ → ℝ) :
    ℕ → ℝ :=
  fun j => (∑ i ∈ Finset.range dIn, w j i * v i) + b j

/-- The fused projection `zxbcdt = self.in_proj(u)` (source line 173); the bias exists only
when the layer was built with `bias=True`. -/
noncomputable def inProj (cfg : Config) (p : Params) (u : List (ℕ → ℝ)) :
    List (ℕ → ℝ) :=
  u.map (linearMap cfg.d_model p.in_proj_w
    (fun j => if cfg.bias then p.in_proj_b j else 0))

/-- A channel-offset view, the building block of `torch.split` on the
last axis. -/
def sliceChans (off : ℕ) (l : List (ℕ → ℝ)) : List (ℕ → ℝ) :=
  l.map (fun v j => v (off + j))

/-- Modelled from the spec (§4.2; `causal_conv1d_fn` / `self.conv1d` use
is external): depthwise causal 1-D convolution of kernel width `d_conv`
with left zero-padding `d_conv - 1` (output at time `i` reads inputs at
times `≤ i` only), followed by the silu/swish activation.  Matches
PyTorch cross-correlation orientation: `out[i][c] = act(bias[c] +
Σ_{k<d_conv} w[c][k] * xpad[i+k][c])` with `d_conv - 1` zeros prepended. -/
noncomputable def causalConv (cfg : Config) (w : ℕ → ℕ → ℝ) (b : ℕ → ℝ)
    (xs : List (ℕ → ℝ)) : List (ℕ → ℝ) :=
  (List.range xs.length).map (fun i c =>
    silu ((if cfg.conv_bias then b c else 0) +
      ∑ k ∈ Finset.range cfg.d_conv,
        w c k *
          (if cfg.d_conv ≤ i + k + 1 then
            (xs.getD (i + k + 1 - cfg.d_conv) (fun _ => 0)) c
          else 0)))

/-- One step of the selective-scan state update, modelled from spec §4.3:
`state_t = exp(dt_t * A_h) * state_{t-1} + dt_t * B_t ⊗ x_t`.
Within the post-convolution block `xv`, channel `h*headdim + pp` is
`x[h][pp]` and channel `d_inner + g*d_state + n` is `B[g][n]`, with head
`h` in group `h / (nheads / ngroups)`. -/
noncomputable def ssmNext (cfg : Config) (Av : ℕ → ℝ)
    (st : ℕ → ℕ → ℕ → ℝ) (xv dtv : ℕ → ℝ) : ℕ → ℕ → ℕ → ℝ :=
  fun h pp n =>
    Real.exp (dtv h * Av h) * st h pp n +
      dtv h * xv (cfg.d_inner + (h / (cfg.nheads / cfg.ngroups)) * cfg.d_state + n) *
        xv (h * cfg.headdim + pp)

/-- The scan output at one timestep, modelled from spec §4.3:
`y_t = C_t · state_t + D_h * x_t`, flattened back to `(h p) -> h*headdim+p`
channel order; channel `d_inner + ngroups*d_state + g*d_state + n` of the
post-convolution block is `C[g][n]`. -/
noncomputable def ssmOutAt (cfg : Config) (Dv : ℕ → ℝ)
    (st : ℕ → ℕ → ℕ → ℝ) (xv : ℕ → ℝ) : ℕ → ℝ :=
  fun j =>
    (∑ n ∈ Finset.range cfg.d_state,
      xv (cfg.d_inner + cfg.ngroups * cfg.d_state +
            ((j / cfg.headdim) / (cfg.nheads / cfg.ngroups)) * cfg.d_state + n) *
        st (j / cfg.headdim) (j % cfg.headdim) n) +
      Dv (j / cfg.headdim) * xv ((j / cfg.headdim) * cfg.headdim + j % cfg.headdim)

/-- Modelled from the spec: the chunked selective scan
(`mamba_chunk_scan_combined`, not among the given sources) is the
sequential linear recurrence of §4.3; chunking is an execution strategy
of the same math (§4.3, §8 "chunking invariance").  Consumes the list of
per-timestep (conv-block, dt) pairs. -/
noncomputable def ssmScan (cfg : Config) (Av Dv : ℕ → ℝ)
    (st : ℕ → ℕ → ℕ → ℝ) : List ((ℕ → ℝ) × (ℕ → ℝ)) → List (ℕ → ℝ)
  | [] => []
  | a :: rest =>
    ssmOutAt cfg Dv (ssmNext cfg Av st a.1 a.2) a.1 ::
      ssmScan cfg Av Dv (ssmNext cfg Av st a.1 a.2) rest

/-- Modelled from the spec (§6; `RMSNormGated` is external): gated RMS
normalization with `norm_before_gate=False` and `eps = 1e-5` — the signal
is multiplied by the silu-activated gate first, then RMS-normalized over
the `d_inner` channels and scaled by the learned weight. -/
noncomputable def rmsNormGated (cfg : Config) (w : ℕ → ℝ) (yv zv : ℕ → ℝ) :
    ℕ → ℝ :=
  fun j =>
    (yv j * silu (zv j)) * w j /
      Real.sqrt
        ((∑ i ∈ Finset.range cfg.d_inner, (yv i * silu (zv i)) ^ 2) /
            (cfg.d_inner : ℝ) + 1 / 100000)

/-- Source `initial_states` (line 175): the learnable initial state when
enabled, zero otherwise. -/
noncomputable def initState (cfg : Config) (p : Params) : ℕ → ℕ → ℕ → ℝ :=
  if cfg.learnable_init_states then p.init_states else fun _ _ _ => 0

/-- One direction of the layer applied to a (possibly time-reversed) fused
projection output `zx`: split `[z, xBC, dt]` (widths `d_inner`,
`conv_dim`, `nheads`), `dt = softplus(dt + dt_bias)` (plus the kernels'
`dt_limit` clamp), causal convolution with activation over `xBC`, the
selective scan over the split `x/B/C`, and gated normalization against
the gate `z`.  This is lines 262-300 of the source (and, per spec §4.2/4.3,
also the body of the fused kernel, which the source calls with the same
tensors per direction). -/
noncomputable def branchOut (cfg : Config) (cw : ℕ → ℕ → ℝ)
    (cb dtb Alog Dv nw : ℕ → ℝ) (st0 : ℕ → ℕ → ℕ → ℝ)
    (zx : List (ℕ → ℝ)) : List (ℕ → ℝ) :=
  let z := sliceChans 0 zx
  let xBC := sliceChans cfg.d_inner zx
  let dtraw := sliceChans (cfg.d_inner + cfg.conv_dim) zx
  let dt := dtraw.map (fun v h => dtValue cfg (dtb h) (v h))
  let xBCc := causalConv cfg cw cb xBC
  let y := ssmScan cfg (fun h => Aof (Alog h)) Dv st0
    (List.zipWith (fun a b => (a, b)) xBCc dt)
  List.zipWith (fun yv zv => rmsNormGated cfg nw yv zv) y z

/-- Source `out_fw` (line 182): the forward direction run on `zxbcdt`. -/
noncomputable def out_fw (cfg : Config) (p : Params) (zx : List (ℕ → ℝ)) :
    List (ℕ → ℝ) :=
  branchOut cfg p.conv1d_w p.conv1d_b p.dt_bias p.A_log p.D p.norm_w
    (initState cfg p) zx

/-- Source `out_bw` (line 203): the backward direction, run with the
independent backward parameter set on `zxbcdt.flip([-2])` — the whole
fused projection output time-reversed before re-splitting. -/
noncomputable def out_bw (cfg : Config) (p : Params) (zx : List (ℕ → ℝ)) :
    List (ℕ → ℝ) :=
  branchOut cfg p.conv1d_bw_w p.conv1d_bw_b p.dt_bias_bw p.A_b_log p.D_b p.norm_w
    (initState cfg p) zx.reverse

/-- The bidirectional combination (source lines 230-235):
`out_fw + out_bw.flip([-2])`, divided by 2 exactly when `divide_out`. -/
noncomputable def combineOut (cfg : Config) (yf yb : List (ℕ → ℝ)) :
    List (ℕ → ℝ) :=
  let s := List.zipWith (fun a b j => a j + b j) yf yb.reverse
  if cfg.divide_out then s.map (fun v j => v j / 2) else s

/-- The output projection `self.out_proj` (source line 164): dense map from `d_inner` back to
`d_model` channels, with a bias only when built with `bias=True`. -/
noncomputable def outProj (cfg : Config) (p : Params) (l : List (ℕ → ℝ)) :
    List (ℕ → ℝ) :=
  l.map (linearMap cfg.d_inner p.out_proj_w
    (fun i => if cfg.bias then p.out_proj_b i else 0))

/-- The layer call `Mamba2Simple.forward(u)` for one batch element (`seq_idx=None`).
Branch structure follows the source exactly:
* `use_mem_eff_path` and `bimamba_type == "v2"`: two fused kernel calls,
  the backward one on `zxbcdt.flip([-2])`, then
  `out_proj(out_fw + out_bw.flip([-2]))`, halved iff `divide_out`;
* `use_mem_eff_path`, other `bimamba_type`: one fused call with the output
  projection folded in;
* non-fused, `bimamba_type == "v2"`: after the forward branch, line 305
  evaluates `zxbcdt.flip[(-2)]`, which subscripts the bound method `flip`
  instead of calling it — a `TypeError` at runtime (spec §9 flags this
  expression as a likely source defect);
* non-fused, other `bimamba_type`: conv-then-scan fallback, forward only.
The activation asserts (source lines 266/310/357 and the kernels'
silu/swish requirement) precede each branch body. -/
noncomputable def Mamba2Simple.forward (cfg : Config) (p : Params)
    (u : List (ℕ → ℝ)) : Except LayerError (List (ℕ → ℝ)) :=
  let zxbcdt := inProj cfg p u
  if cfg.use_mem_eff_path then
    if cfg.bimamba_type = "v2" then
      if cfg.activation = "silu" ∨ cfg.activation = "swish" then
        .ok (outProj cfg p
          (combineOut cfg (out_fw cfg p zxbcdt) (out_bw cfg p zxbcdt)))
      else .error (.configError "ConfigurationError: unsupported activation")
    else
      if cfg.activation = "silu" ∨ cfg.activation = "swish" then
        .ok (outProj cfg p (out_fw cfg p zxbcdt))
      else .error (.configError "ConfigurationError: unsupported activation")
  else
    if cfg.bimamba_type = "v2" then
      if cfg.activation = "silu" ∨ cfg.activation = "swish" then
        .error (.typeError "TypeError: zxbcdt.flip[(-2)] subscripts a bound method")
      else .error (.configError "ConfigurationError: unsupported activation")
    else
      if cfg.activation = "silu" ∨ cfg.activation = "swish" then
        .ok (outProj cfg p (out_fw cfg p zxbcdt))
      else .error (.configError "ConfigurationError: unsupported activation")

/-- The forward-direction branch of the layer as a function of the raw
input: input projection, split, causal convolution, forward scan, gated
norm (claim C8's subject). -/
noncomputable def fwdBranch (cfg : Config) (p : Params) (u : List (ℕ → ℝ)) :
    List (ℕ → ℝ) :=
  out_fw cfg p (inProj cfg p u)

/-! Length bookkeeping -/

lemma length_sliceChans (off : ℕ) (l : List (ℕ → ℝ)) :
    (sliceChans off l).length = l.length := by
  simp [sliceChans]

lemma length_inProj (cfg : Config) (p : Params) (u : List (ℕ → ℝ)) :
    (inProj cfg p u).length = u.length := by
  simp [inProj]

lemma length_causalConv (cfg : Config) (w : ℕ → ℕ → ℝ) (b : ℕ → ℝ)
    (xs : List (ℕ → ℝ)) : (causalConv cfg w b xs).length = xs.length := by
  simp [causalConv]

lemma length_ssmScan (cfg : Config) (Av Dv : ℕ → ℝ) :
    ∀ (st : ℕ → ℕ → ℕ → ℝ) (l : List ((ℕ → ℝ) × (ℕ → ℝ))),
      (ssmScan cfg Av Dv st l).length = l.length
  | _, [] => rfl
  | st, a :: rest => by
    simp [ssmScan, length_ssmScan cfg Av Dv _ rest]

lemma length_branchOut (cfg : Config) (cw : ℕ → ℕ → ℝ)
    (cb dtb Alog Dv nw : ℕ → ℝ) (st0 : ℕ → ℕ → ℕ → ℝ)
    (zx : List (ℕ → ℝ)) :
    (branchOut cfg cw cb dtb Alog Dv nw st0 zx).length = zx.length := by
  simp [branchOut, length_ssmScan, length_causalConv, length_sliceChans]

lemma length_out_fw (cfg : Config) (p : Params) (zx : List (ℕ → ℝ)) :
    (out_fw cfg p zx).length = zx.length := by
  simp [out_fw, length_branchOut]

lemma length_out_bw (cfg : Config) (p : Params) (zx : List (ℕ → ℝ)) :
    (out_bw cfg p zx).length = zx.length := by
  simp [out_bw, length_branchOut]

lemma length_combineOut (cfg : Config) (yf yb : List (ℕ → ℝ)) :
    (combineOut cfg yf yb).length = min yf.length yb.length := by
  by_cases h : cfg.divide_out <;> simp [combineOut, h]

lemma length_outProj (cfg : Config) (p : Params) (l : List (ℕ → ℝ)) :
    (outProj cfg p l).length = l.length := by
  simp [outProj]

/-! Prefix-agreement machinery for causality -/

lemma getD_eq_of_take_eq {α} (d : α) {l l' : List α} {t i : ℕ}
    (h : l.take t = l'.take t) (hi : i < t) : l.getD i d = l'.getD i d := by
  have h1 : (l.take t)[i]? = (l'.take t)[i]? := by rw [h]
  rw [List.getElem?_take_of_lt hi, List.getElem?_take_of_lt hi] at h1
  simp [List.getD_eq_getElem?_getD, h1]

lemma take_eq_of_agree {α} {l l' : List α} {t : ℕ}
    (h : ∀ i, i < t → l[i]? = l'[i]?) : l.take t = l'.take t := by
  apply List.ext_getElem?
  intro i
  by_cases hi : i < t
  · rw [List.getElem?_take_of_lt hi, List.getElem?_take_of_lt hi, h i hi]
  · have hle : t ≤ i := Nat.le_of_not_lt hi
    rw [List.getElem?_eq_none (le_trans (List.length_take_le _ _) hle),
      List.getElem?_eq_none (le_trans (List.length_take_le _ _) hle)]

/-- The causal convolution reads input positions `≤ i` to produce output
position `i`: inputs agreeing up to `t` give outputs agreeing up to `t`. -/
lemma causalConv_take_eq (cfg : Config) (w : ℕ → ℕ → ℝ) (b : ℕ → ℝ)
    {xs xs' : List (ℕ → ℝ)} {t : ℕ} (hlen : xs.length = xs'.length)
    (h : xs.take t = xs'.take t) :
    (causalConv cfg w b xs).take t = (causalConv cfg w b xs').take t := by
  apply take_eq_of_agree
  intro i hi
  unfold causalConv
  rw [hlen]
  rw [List.getElem?_map, List.getElem?_map]
  by_cases hin : i < xs'.length
  · rw [List.getElem?_range hin]
    simp only [Option.map_some']
    refine congrArg some ?_
    funext c
    refine congrArg silu
      (congrArg (fun s => (if cfg.conv_bias = true then b c else 0) + s) ?_)
    refine Finset.sum_congr rfl ?_
    intro k hkmem
    have hkd : k < cfg.d_conv := Finset.mem_range.mp hkmem
    refine congrArg (w c k * ·) ?_
    by_cases hk : cfg.d_conv ≤ i + k + 1
    · simp only [hk, if_true]
      have hidx : i + k + 1 - cfg.d_conv < t := by omega
      rw [getD_eq_of_take_eq _ h hidx]
    · simp [hk]
  · rw [List.getElem?_eq_none (by simpa using Nat.le_of_not_lt hin)]
    simp

/-- The scan is causal: input lists agreeing on their first `t` entries
produce outputs agreeing on the first `t` entries (same carried state). -/
lemma ssmScan_take_eq (cfg : Config) (Av Dv : ℕ → ℝ) :
    ∀ (t : ℕ) (st : ℕ → ℕ → ℕ → ℝ) (l l' : List ((ℕ → ℝ) × (ℕ → ℝ))),
      l.take t = l'.take t →
      (ssmScan cfg Av Dv st l).take t = (ssmScan cfg Av Dv st l').take t
  | 0, _, _, _, _ => by simp
  | t + 1, st, [], l', h => by
    cases l' with
    | nil => rfl
    | cons b l2' => exact absurd h (by simp)
  | t + 1, st, a :: l2, l', h => by
    cases l' with
    | nil => simp at h
    | cons b l2' =>
      simp only [List.take_succ_cons, List.cons.injEq] at h
      obtain ⟨rfl, h2⟩ := h
      simp only [ssmScan, List.take_succ_cons, List.cons.injEq]
      exact ⟨trivial, ssmScan_take_eq cfg Av Dv t _ l2 l2' h2⟩

/-! Concrete instances used by witnesses and counterexamples -/

/-- A minimal valid configuration: `d_model=1, d_state=1, d_conv=1,
expand=1, headdim=1, ngroups=1`, `bimamba_type="v2"`, fused path. -/
def cfgBase : Config :=
  { d_model := 1, d_state := 1, d_conv := 1, expand := 1, headdim := 1,
    ngroups := 1, A_init_range := (1, 16), dt_limit := (0, none),
    learnable_init_states := false, activation := "swish",
    bimamba_type := "v2", divide_out := false, bias := false,
    conv_bias := true, chunk_size := 1, use_mem_eff_path := true }

/-- All-zero parameter set. -/
noncomputable def pZero : Params :=
  { in_proj_w := fun _ _ => 0, in_proj_b := fun _ => 0,
    conv1d_w := fun _ _ => 0, conv1d_b := fun _ => 0,
    conv1d_bw_w := fun _ _ => 0, conv1d_bw_b := fun _ => 0,
    dt_bias := fun _ => 0, dt_bias_bw := fun _ => 0,
    A_log := fun _ => 0, A_b_log := fun _ => 0,
    D := fun _ => 0, D_b := fun _ => 0,
    init_states := fun _ _ _ => 0, norm_w := fun _ => 0,
    out_proj_w := fun _ _ => 0, out_proj_b := fun _ => 0 }

/-- A one-timestep zero input sequence. -/
noncomputable def uOne : List (ℕ → ℝ) := [fun _ => 0]

/-- Head-of-output accessor: the value at time 0, channel 0, of a forward
result (0 when the call failed). -/
noncomputable def out00 (e : Except LayerError (List (ℕ → ℝ))) : ℝ :=
  match e with
  | .ok (v :: _) => v 0
  | _ => 0

/-- Parameters whose output projection has weight 0 and bias 1. -/
noncomputable def pOutBias : Params :=
  { pZero with out_proj_b := fun _ => 1 }

lemma out00_with_zero_out_proj_w (b : Bool) :
    out00 (Mamba2Simple.forward { cfgBase with divide_out := b, bias := true }
      pOutBias uOne) = 1 := by
  cases b <;>
    simp [Mamba2Simple.forward, cfgBase, pOutBias, pZero, uOne, out00, inProj,
      outProj, combineOut, out_fw, out_bw, branchOut, sliceChans, causalConv,
      ssmScan, linearMap]

/-! The flag `divide_out` does not affect anything before the combination step -/

lemma ssmScan_divide_out (cfg : Config) (b : Bool) (Av Dv : ℕ → ℝ) :
    ∀ (st : ℕ → ℕ → ℕ → ℝ) (l : List ((ℕ → ℝ) × (ℕ → ℝ))),
      ssmScan { cfg with divide_out := b } Av Dv st l = ssmScan cfg Av Dv st l
  | _, [] => rfl
  | st, a :: rest =>
    congrArg₂ List.cons rfl (ssmScan_divide_out cfg b Av Dv _ rest)

lemma branchOut_divide_out (cfg : Config) (b : Bool) (cw : ℕ → ℕ → ℝ)
    (cb dtb Alog Dv nw : ℕ → ℝ) (st0 : ℕ → ℕ → ℕ → ℝ) (zx : List (ℕ → ℝ)) :
    branchOut { cfg with divide_out := b } cw cb dtb Alog Dv nw st0 zx =
      branchOut cfg cw cb dtb Alog Dv nw st0 zx := by
  simp only [branchOut]
  rw [ssmScan_divide_out]
  rfl

lemma out_fw_divide_out (cfg : Config) (b : Bool) (p : Params)
    (zx : List (ℕ → ℝ)) :
    out_fw { cfg with divide_out := b } p zx = out_fw cfg p zx := by
  unfold out_fw
  rw [branchOut_divide_out]
  rfl

lemma out_bw_divide_out (cfg : Config) (b : Bool) (p : Params)
    (zx : List (ℕ → ℝ)) :
    out_bw { cfg with divide_out := b } p zx = out_bw cfg p zx := by
  unfold out_bw
  rw [branchOut_divide_out]
  rfl

/-- Without an output-projection bias, `out_proj` commutes with halving. -/
lemma outProj_map_half (cfg : Config) (p : Params) (hb : cfg.bias = false)
    (s : List (ℕ → ℝ)) :
    outProj cfg p (s.map (fun v j => v j / 2)) =
      (outProj cfg p s).map (fun v j => v j / 2) := by
  unfold outProj
  rw [List.map_map, List.map_map]
  refine congrFun (congrArg List.map ?_) s
  funext v j
  simp only [Function.comp, linearMap, hb, if_false, Bool.false_eq_true]
  rw [add_zero, add_zero, Finset.sum_div]
  exact Finset.sum_congr rfl fun i _ => (mul_div_assoc _ _ _).symm

/-- Case-free description of `forward` on a bidirectional configuration. -/
lemma forward_v2_eq (cfg : Config) (p : Params) (u : List (ℕ → ℝ))
    (hv2 : cfg.bimamba_type = "v2") :
    Mamba2Simple.forward cfg p u =
      if cfg.use_mem_eff_path then
        if cfg.activation = "silu" ∨ cfg.activation = "swish" then
          .ok (outProj cfg p (combineOut cfg (out_fw cfg p (inProj cfg p u))
            (out_bw cfg p (inProj cfg p u))))
        else .error (.configError "ConfigurationError: unsupported activation")
      else
        if cfg.activation = "silu" ∨ cfg.activation = "swish" then
          .error (.typeError "TypeError: zxbcdt.flip[(-2)] subscripts a bound method")
        else .error (.configError "ConfigurationError: unsupported activation") := by
  unfold Mamba2Simple.forward
  rw [hv2]
  simp only [reduceIte]

/-! Claims -/

/-- C1: In bidirectional mode the backward branch must run on the whole
`zxbcdt` time-reversed before re-splitting, in both code paths.  The fused
path does so (`out_bw` consumes `zx.reverse`), but in the non-fused path
the source's line 305 `zxbcdt.flip[(-2)]` subscripts the bound method
`flip` instead of calling `flip([-2])`, raising `TypeError` — so the
non-fused backward branch never reverses (or re-splits) anything:
`forward` fails on every non-fused bidirectional call. -/
theorem nonfused_backward_flip_subscript_raises :
    Mamba2Simple.forward { cfgBase with use_mem_eff_path := false } pZero
        [fun _ => 1, fun _ => 2] =
      .error (.typeError "TypeError: zxbcdt.flip[(-2)] subscripts a bound method") :=
  rfl

/-- C2: whenever `forward` returns a value in bidirectional mode, that value
is the output projection of the sum of the forward branch output and the
time-reversed backward branch output, with the sum divided by 2 exactly
when `divide_out` is set. -/
theorem forward_bidirectional_combination (cfg : Config) (p : Params)
    (u out : List (ℕ → ℝ)) (hv2 : cfg.bimamba_type = "v2")
    (h : Mamba2Simple.forward cfg p u = .ok out) :
    out = outProj cfg p
      (if cfg.divide_out then
        (List.zipWith (fun a b j => a j + b j) (out_fw cfg p (inProj cfg p u))
          (out_bw cfg p (inProj cfg p u)).reverse).map (fun v j => v j / 2)
      else
        List.zipWith (fun a b j => a j + b j) (out_fw cfg p (inProj cfg p u))
          (out_bw cfg p (inProj cfg p u)).reverse) := by
  unfold Mamba2Simple.forward at h
  rw [hv2] at h
  simp only [reduceIte] at h
  split at h
  · split at h
    · injection h with h2
      subst h2
      by_cases hd : cfg.divide_out <;> simp [combineOut, hd]
    · simp at h
  · split at h
    · simp at h
    · simp at h

/-- C2 witness at a concrete configuration and input. -/
theorem forward_bidirectional_combination_inst :
    outProj cfgBase pZero
        (combineOut cfgBase (out_fw cfgBase pZero (inProj cfgBase pZero uOne))
          (out_bw cfgBase pZero (inProj cfgBase pZero uOne))) =
      outProj cfgBase pZero
        (List.zipWith (fun a b j => a j + b j)
          (out_fw cfgBase pZero (inProj cfgBase pZero uOne))
          (out_bw cfgBase pZero (inProj cfgBase pZero uOne)).reverse) :=
  forward_bidirectional_combination cfgBase pZero uOne _ rfl rfl

/-- C3: the fused (`use_mem_eff_path=True`) and non-fused paths do not
compute the same output: on the same valid bidirectional configuration
and input, the fused path returns a value while the non-fused path raises
`TypeError` at the `zxbcdt.flip[(-2)]` expression. -/
theorem fused_nonfused_paths_diverge :
    (∃ o, Mamba2Simple.forward cfgBase pZero uOne = .ok o) ∧
      Mamba2Simple.forward { cfgBase with use_mem_eff_path := false } pZero uOne =
        .error (.typeError "TypeError: zxbcdt.flip[(-2)] subscripts a bound method") :=
  ⟨⟨_, rfl⟩, rfl⟩

/-- C4 counterexample: with an output-projection bias (layer built with
`bias=True`, here `out_proj` weight 0 and bias 1), the `divide_out=true`
output is not half the `divide_out=false` output: both equal 1 at time 0,
channel 0, and 1 ≠ 1/2. -/
theorem divide_out_half_fails_with_out_proj_bias :
    out00 (Mamba2Simple.forward { cfgBase with divide_out := true, bias := true }
        pOutBias uOne) ≠
      out00 (Mamba2Simple.forward { cfgBase with divide_out := false, bias := true }
        pOutBias uOne) / 2 := by
  rw [out00_with_zero_out_proj_w true, out00_with_zero_out_proj_w false]
  norm_num

/-- C4 amended: for a layer with no projection biases (`bias=False`, the
default) in bidirectional mode, the `divide_out=true` forward output is
exactly half of the `divide_out=false` forward output, elementwise, for
every input and every parameter set. -/
theorem divide_out_halves_without_bias (cfg : Config) (p : Params)
    (u : List (ℕ → ℝ)) (hv2 : cfg.bimamba_type = "v2")
    (hb : cfg.bias = false) :
    Mamba2Simple.forward { cfg with divide_out := true } p u =
      Except.map (List.map (fun v j => v j / 2))
        (Mamba2Simple.forward { cfg with divide_out := false } p u) := by
  rw [forward_v2_eq { cfg with divide_out := true } p u hv2,
    forward_v2_eq { cfg with divide_out := false } p u hv2]
  by_cases hm : cfg.use_mem_eff_path
  · rw [if_pos hm, if_pos hm]
    by_cases ha : cfg.activation = "silu" ∨ cfg.activation = "swish"
    · rw [if_pos ha, if_pos ha]
      simp only [Except.map]
      refine congrArg Except.ok ?_
      rw [out_fw_divide_out cfg true, out_bw_divide_out cfg true,
        out_fw_divide_out cfg false, out_bw_divide_out cfg false]
      have hT : ∀ yf yb : List (ℕ → ℝ),
          combineOut { cfg with divide_out := true } yf yb =
            (List.zipWith (fun a b j => a j + b j) yf yb.reverse).map
              (fun v j => v j / 2) := fun _ _ => rfl
      have hF : ∀ yf yb : List (ℕ → ℝ),
          combineOut { cfg with divide_out := false } yf yb =
            List.zipWith (fun a b j => a j + b j) yf yb.reverse :=
        fun _ _ => rfl
      rw [hT, hF]
      have hz : inProj { cfg with divide_out := true } p u =
          inProj { cfg with divide_out := false } p u := rfl
      rw [hz]
      have ho : ∀ s, outProj { cfg with divide_out := true } p s =
          outProj { cfg with divide_out := false } p s := fun _ => rfl
      rw [ho]
      exact outProj_map_half { cfg with divide_out := false } p hb _
    · rw [if_neg ha, if_neg ha]
      rfl
  · rw [if_neg hm, if_neg hm]
    dsimp only
    by_cases ha : cfg.activation = "silu" ∨ cfg.activation = "swish"
    · rw [if_pos ha]
      rfl
    · rw [if_neg ha]
      rfl

/-- C4 amended, witness at a concrete configuration and input. -/
theorem divide_out_halves_without_bias_inst :
    Mamba2Simple.forward { cfgBase with divide_out := true } pZero uOne =
      Except.map (List.map (fun v j => v j / 2))
        (Mamba2Simple.forward { cfgBase with divide_out := false } pZero uOne) :=
  divide_out_halves_without_bias cfgBase pZero uOne rfl rfl

/-- C5: the docstring promises "Returns: same shape as u", and every value
`forward` actually returns has the input's time length (channel width
`d_model` holds by the output projection); but on any valid configuration
with `use_mem_eff_path=False` the bidirectional `forward` raises
`TypeError` instead of returning a tensor at all. -/
theorem forward_output_shape :
    (∀ (p : Params) (u : List (ℕ → ℝ)),
      Mamba2Simple.forward { cfgBase with use_mem_eff_path := false } p u =
        .error (.typeError "TypeError: zxbcdt.flip[(-2)] subscripts a bound method")) ∧
    (∀ (cfg : Config) (p : Params) (u out : List (ℕ → ℝ)),
      Mamba2Simple.forward cfg p u = .ok out → out.length = u.length) := by
  constructor
  · intro p u
    rfl
  · intro cfg p u out h
    unfold Mamba2Simple.forward at h
    split at h
    · split at h
      · split at h
        · injection h with h2
          subst h2
          simp [length_outProj, length_combineOut, length_out_fw,
            length_out_bw, length_inProj]
        · simp at h
      · split at h
        · injection h with h2
          subst h2
          simp [length_outProj, length_out_fw, length_inProj]
        · simp at h
    · split at h
      · split at h <;> simp at h
      · split at h
        · injection h with h2
          subst h2
          simp [length_outProj, length_out_fw, length_inProj]
        · simp at h

/-- C5 witness: a successful call whose output length equals the input
length. -/
theorem forward_output_shape_inst :
    (outProj cfgBase pZero
      (combineOut cfgBase (out_fw cfgBase pZero (inProj cfgBase pZero uOne))
        (out_bw cfgBase pZero (inProj cfgBase pZero uOne)))).length =
      uOne.length :=
  forward_output_shape.2 cfgBase pZero uOne _ rfl

/-- C6: construction fails with a `ConfigurationError` when
`d_inner = expand * d_model` is not divisible by `headdim`, and when
`A_init_range` has lower bound ≤ 0 or upper bound below the lower bound. -/
theorem init_config_asserts (cfg : Config) :
    (cfg.d_inner % cfg.headdim ≠ 0 →
      Mamba2Simple.initCheck cfg =
        .error (.configError "ConfigurationError: d_inner not divisible by headdim")) ∧
    (cfg.A_init_range.1 ≤ 0 ∨ cfg.A_init_range.2 < cfg.A_init_range.1 →
      ∃ m, Mamba2Simple.initCheck cfg = .error (.configError m)) := by
  constructor
  · intro h
    unfold Mamba2Simple.initCheck
    rw [if_pos h]
  · intro h
    unfold Mamba2Simple.initCheck
    by_cases hd : cfg.d_inner % cfg.headdim ≠ 0
    · exact ⟨_, by rw [if_pos hd]⟩
    · have hA : ¬ (0 < cfg.A_init_range.1 ∧ cfg.A_init_range.1 ≤ cfg.A_init_range.2) := by
        rcases h with h | h
        · exact fun hc => absurd hc.1 (not_lt.mpr h)
        · exact fun hc => absurd (lt_of_le_of_lt hc.2 h) (lt_irrefl _)
      exact ⟨_, by rw [if_neg hd, if_pos hA]⟩

/-- C6 witness: headdim 2 does not divide `d_inner = 1`, and
`A_init_range = (0, 16)` has lower bound ≤ 0; both asserts fire. -/
theorem init_config_asserts_inst :
    Mamba2Simple.initCheck { cfgBase with headdim := 2 } =
        .error (.configError "ConfigurationError: d_inner not divisible by headdim") ∧
    ∃ m, Mamba2Simple.initCheck { cfgBase with A_init_range := (0, 16) } =
        .error (.configError m) :=
  ⟨(init_config_asserts _).1 (by decide),
   (init_config_asserts _).2 (Or.inl (by decide))⟩

/-- C7: the selectivity step `dt = softplus(raw + dt_bias)` is nonnegative
for all inputs, and a configured `dt_limit` clamp lands in `[lo, hi]`
whenever `lo ≤ hi`. -/
theorem dt_softplus_nonneg_and_limit (raw bias dt : ℝ) (lo hi : ℚ)
    (h : (lo : ℝ) ≤ (hi : ℝ)) :
    0 ≤ dtStep raw bias ∧
      (lo : ℝ) ≤ applyDtLimit (lo, some hi) dt ∧
      applyDtLimit (lo, some hi) dt ≤ (hi : ℝ) := by
  refine ⟨?_, ?_, ?_⟩
  · unfold dtStep softplus
    exact Real.log_nonneg (by linarith [Real.exp_pos (raw + bias)])
  · show (lo : ℝ) ≤ min (hi : ℝ) (max (lo : ℝ) dt)
    exact le_min h (le_max_left _ _)
  · show min (hi : ℝ) (max (lo : ℝ) dt) ≤ (hi : ℝ)
    exact min_le_left _ _

/-- C7 witness at concrete values. -/
theorem dt_softplus_nonneg_and_limit_inst :
    0 ≤ dtStep 0 0 ∧
      ((0 : ℚ) : ℝ) ≤ applyDtLimit (0, some 1) 5 ∧
      applyDtLimit (0, some 1) 5 ≤ ((1 : ℚ) : ℝ) :=
  dt_softplus_nonneg_and_limit 0 0 5 0 1 (by simp)

/-- C8: causality of the forward-direction branch: inputs of equal length
that agree at every time index `< t` produce branch outputs that agree at
every time index `< t` — changing `u` at time `t` cannot change the
forward branch output at any earlier index. -/
theorem forward_branch_causality (cfg : Config) (p : Params)
    (u u' : List (ℕ → ℝ)) (t : ℕ) (hlen : u.length = u'.length)
    (htake : u.take t = u'.take t) :
    (fwdBranch cfg p u).take t = (fwdBranch cfg p u').take t := by
  unfold fwdBranch out_fw
  have hz : (inProj cfg p u).take t = (inProj cfg p u').take t := by
    unfold inProj
    rw [← List.map_take, ← List.map_take, htake]
  have hzlen : (inProj cfg p u).length = (inProj cfg p u').length := by
    simp [length_inProj, hlen]
  generalize hzu : inProj cfg p u = zx at hz hzlen
  generalize hzu' : inProj cfg p u' = zx' at hz hzlen
  simp only [branchOut]
  have hslice : ∀ off : ℕ, (sliceChans off zx).take t = (sliceChans off zx').take t := by
    intro off
    unfold sliceChans
    rw [← List.map_take, ← List.map_take, hz]
  have hdt : ((sliceChans (cfg.d_inner + cfg.conv_dim) zx).map
        (fun v h => dtValue cfg (p.dt_bias h) (v h))).take t =
      ((sliceChans (cfg.d_inner + cfg.conv_dim) zx').map
        (fun v h => dtValue cfg (p.dt_bias h) (v h))).take t := by
    rw [← List.map_take, ← List.map_take, hslice]
  have hconv : (causalConv cfg p.conv1d_w p.conv1d_b
        (sliceChans cfg.d_inner zx)).take t =
      (causalConv cfg p.conv1d_w p.conv1d_b
        (sliceChans cfg.d_inner zx')).take t :=
    causalConv_take_eq cfg _ _ (by simp [length_sliceChans, hzlen]) (hslice _)
  have hzip : (List.zipWith (fun a b => (a, b))
        (causalConv cfg p.conv1d_w p.conv1d_b (sliceChans cfg.d_inner zx))
        ((sliceChans (cfg.d_inner + cfg.conv_dim) zx).map
          (fun v h => dtValue cfg (p.dt_bias h) (v h)))).take t =
      (List.zipWith (fun a b => (a, b))
        (causalConv cfg p.conv1d_w p.conv1d_b (sliceChans cfg.d_inner zx'))
        ((sliceChans (cfg.d_inner + cfg.conv_dim) zx').map
          (fun v h => dtValue cfg (p.dt_bias h) (v h)))).take t := by
    rw [List.take_zipWith, List.take_zipWith, hconv, hdt]
  have hscan := ssmScan_take_eq cfg (fun h => Aof (p.A_log h)) p.D
    t (initState cfg p) _ _ hzip
  rw [List.take_zipWith, List.take_zipWith, hscan, hslice 0]

/-- C8 witness: two inputs differing only at time index 1 give forward
branches agreeing before index 1. -/
theorem forward_branch_causality_inst :
    (fwdBranch cfgBase pZero [fun _ => 0, fun _ => 1]).take 1 =
      (fwdBranch cfgBase pZero [fun _ => 0, fun _ => 2]).take 1 :=
  forward_branch_causality cfgBase pZero _ _ 1 rfl rfl

/-- C9: the per-head decay rate used at forward time, `A = -exp(A_log)`
(applied to `A_log` and `A_b_log` alike), is strictly negative for every
real stored value. -/
theorem A_strictly_negative (a : ℝ) : Aof a < 0 := by
  unfold Aof
  exact neg_lt_zero.mpr (Real.exp_pos a)

/-- C10: construction succeeds only with `bimamba_type = "v2"` (the default
`"none"` included fails), so every constructed layer is bidirectional; the
backward parameter set (`conv1d_bw`, `A_b_log`, `D_b`, `dt_bias_bw`) is
built unconditionally after that assert (fields of `Params`). -/
theorem construction_requires_bimamba_v2 (cfg : Config) :
    ((∃ v, Mamba2Simple.initCheck cfg = .ok v) → cfg.bimamba_type = "v2") ∧
    (cfg.bimamba_type ≠ "v2" →
      ∃ m, Mamba2Simple.initCheck cfg = .error (.configError m)) := by
  constructor
  · rintro ⟨v, hv⟩
    unfold Mamba2Simple.initCheck at hv
    split at hv
    · simp at hv
    · split at hv
      · simp at hv
      · split at hv
        · simp at hv
        · next hne => exact not_not.mp hne
  · intro hne
    unfold Mamba2Simple.initCheck
    by_cases h1 : cfg.d_inner % cfg.headdim ≠ 0
    · exact ⟨_, by rw [if_pos h1]⟩
    · by_cases h2 : ¬ (0 < cfg.A_init_range.1 ∧ cfg.A_init_range.1 ≤ cfg.A_init_range.2)
      · exact ⟨_, by rw [if_neg h1, if_pos h2]⟩
      · exact ⟨_, by rw [if_neg h1, if_neg h2, if_pos hne]⟩

/-- C10 witness: a layer with the default `bimamba_type = "none"` fails to
construct, while `cfgBase` (with "v2") passes and is bidirectional. -/
theorem construction_requires_bimamba_v2_inst :
    cfgBase.bimamba_type = "v2" ∧
    ∃ m, Mamba2Simple.initCheck { cfgBase with bimamba_type := "none" } =
        .error (.configError m) :=
  ⟨(construction_requires_bimamba_v2 cfgBase).1 ⟨(), rfl⟩,
   (construction_requires_bimamba_v2 _).2 (by decide)⟩
